import Mathlib

/-!
Shallow embedding of tolvera's named-state runtime (src/tolvera/state.py):
the `StateDict` registry and the `State` block with its host mirror and
device field, together with the accessor-generation layer. External
collaborators that the source imports but that are not part of the given
sources (the `NpNdarrayDict` host mirror from tolvera/npndarray_dict.py,
and the point-access / OSC handler helpers) are modelled from the
specification where the doc comment says so. Scalar element values are
modelled as integers: the properties under study are structural (sizes,
ordering, sync discipline, route generation), not numeric.
-/

namespace Tolvera

/-- Taichi element types as they appear in schemas (`DataType` in the
source); `unsupported` stands for a type with no entry in the host-side
type map. -/
inductive TiType where
  | f32
  | i32
  | unsupported
deriving DecidableEq, Repr

/-- Host-side numpy element types. -/
inductive NpType where
  | nf32
  | ni32
deriving DecidableEq, Repr

/-- Modelled from the spec: `TiNpTypeMap` of tolvera/npndarray_dict.py
(not among the given sources) maps each taichi element type to its
host-side numeric equivalent and has no entry for unsupported types. -/
def TiNpTypeMap : TiType → Option NpType
  | .f32 => some .nf32
  | .i32 => some .ni32
  | .unsupported => none

/-- The integer code of a taichi type, modelling the Python cast
`int(titype)` used by `State.add_osc_getters`. The concrete enum values
live in the external taichi backend; only their provenance (type entry,
not bound entries) matters to the claims. -/
def TiType.code : TiType → Int
  | .f32 => 10
  | .i32 => 5
  | .unsupported => 0

/-- A schema: ordered mapping from attribute name to
(element type, min bound, max bound), i.e. `dict[str, tuple[DataType,
Any, Any]]` in the source (Python dicts preserve insertion order). -/
abbrev Schema := List (String × TiType × Int × Int)

/-- The Python exception classes the source raises. -/
inductive Err where
  | valueError
  | typeError
  | assertionError
  | keyError
  | notImplementedError
deriving DecidableEq, Repr

/-- Modelled from the spec: `NpNdarrayDict` of tolvera/npndarray_dict.py
(not among the given sources), the host-side TypedBufferMirror: one array
per declared attribute, each with a declared element type and [min, max]
bound. `data` is positionally parallel to `spec` (schema declaration
order). -/
structure NpNdarrayDict where
  spec : List (String × NpType × Int × Int)
  shape : List Nat
  data : List (List Int)
deriving DecidableEq, Repr

/-- Total scalar element count held by the mirror. -/
def NpNdarrayDict.size (d : NpNdarrayDict) : Nat :=
  (d.data.map List.length).sum

/-- Modelled from the spec: whole-block `toVector` concatenates every
attribute's elements in schema declaration order. -/
def NpNdarrayDict.to_vec (d : NpNdarrayDict) : List Int :=
  d.data.flatten

/-- Split a vector contiguously into chunks of the given sizes. -/
def splitBySizes : List Nat → List Int → List (List Int)
  | [], _ => []
  | n :: ns, v => v.take n :: splitBySizes ns (v.drop n)

/-- Modelled from the spec: whole-block `fromVector` fails with a size
mismatch when the supplied vector's length differs from the mirror's
size (checked before any write reaches the mirror), and otherwise
partitions the vector across the attributes in declaration order. -/
def NpNdarrayDict.from_vec (d : NpNdarrayDict) (vec : List Int) :
    Except Err NpNdarrayDict :=
  if vec.length = d.size then
    .ok { d with data := splitBySizes (d.data.map List.length) vec }
  else .error .assertionError

/-- Position of an attribute in the declaration order, if present. -/
def attrIdx (spec : List (String × NpType × Int × Int)) (attr : String) :
    Option Nat :=
  spec.findIdx? (fun e => e.1 == attr)

/-- Modelled from the spec: per-attribute `attrToVector` reads one
attribute's elements across all instances; an unknown attribute fails. -/
def NpNdarrayDict.attr_to_vec (d : NpNdarrayDict) (attr : String) :
    Except Err (List Int) :=
  match attrIdx d.spec attr with
  | some i => .ok (d.data.getD i [])
  | none => .error .keyError

/-- Modelled from the spec: per-attribute `attrFromVector` fails on a
length mismatch before writing, else overwrites one attribute's array. -/
def NpNdarrayDict.attr_from_vec (d : NpNdarrayDict) (attr : String)
    (vec : List Int) : Except Err NpNdarrayDict :=
  match attrIdx d.spec attr with
  | some i =>
    if vec.length = (d.data.getD i []).length then
      .ok { d with data := d.data.set i vec }
    else .error .assertionError
  | none => .error .keyError

/-- Elements of one attribute array addressed by a [start, stop) slice
(the slice is modelled over each attribute's flattened elements). -/
def sliceOf (xs : List Int) (start stop : Nat) : List Int :=
  (xs.take stop).drop start

/-- Overwrite the [start, stop) slice of one attribute array. -/
def setSlice (xs : List Int) (start stop : Nat) (vec : List Int) :
    List Int :=
  xs.take start ++ vec ++ xs.drop stop

/-- Modelled from the spec: arbitrary-slice `sliceToVector` addresses a
sub-range of instances across all attributes. -/
def NpNdarrayDict.slice_to_vec (d : NpNdarrayDict) (start stop : Nat) :
    List Int :=
  (d.data.map (fun xs => sliceOf xs start stop)).flatten

/-- Modelled from the spec: arbitrary-slice `sliceFromVector` fails on a
length mismatch before writing, else overwrites the addressed sub-range
of every attribute. -/
def NpNdarrayDict.slice_from_vec (d : NpNdarrayDict) (start stop : Nat)
    (vec : List Int) : Except Err NpNdarrayDict :=
  if vec.length = ((d.data.map (fun xs => sliceOf xs start stop)).map List.length).sum then
    .ok { d with data :=
      (List.zipWith (fun chunk xs => setSlice xs start stop chunk)
        (splitBySizes (d.data.map (fun xs => (sliceOf xs start stop).length)) vec)
        d.data) }
  else .error .assertionError

/-- Modelled from the spec: per-attribute-slice read. -/
def NpNdarrayDict.attr_slice_to_vec (d : NpNdarrayDict) (attr : String)
    (start stop : Nat) : Except Err (List Int) :=
  match attrIdx d.spec attr with
  | some i => .ok (sliceOf (d.data.getD i []) start stop)
  | none => .error .keyError

/-- Modelled from the spec: per-attribute-slice write, length-checked
before any write. -/
def NpNdarrayDict.attr_slice_from_vec (d : NpNdarrayDict) (attr : String)
    (start stop : Nat) (vec : List Int) : Except Err NpNdarrayDict :=
  match attrIdx d.spec attr with
  | some i =>
    if vec.length = (sliceOf (d.data.getD i []) start stop).length then
      .ok { d with data := d.data.set i (setSlice (d.data.getD i []) start stop vec) }
    else .error .assertionError
  | none => .error .keyError

/-- Modelled from the spec: `randomise` fills every attribute with values
drawn within its [min, max] bound; the draw itself is external, so it is
modelled by a fixed in-bound representative (the min bound) per
attribute. -/
def NpNdarrayDict.randomise (d : NpNdarrayDict) : NpNdarrayDict :=
  { d with data :=
      (List.zipWith (fun e xs => List.replicate xs.length e.2.2.1) d.spec d.data) }

/-- A state block (`State` in the source): name, schema, shape, the
device-resident struct-of-arrays field, the host mirror, the declared
size, and the canonical accessor names derived in `setup_accessors`. The
device field is modelled, like the mirror's payload, as one integer array
per schema attribute in declaration order (a struct-of-arrays
snapshot). -/
structure State where
  name : String
  dict : Schema
  shape : List Nat
  field : List (List Int)
  nddict : NpNdarrayDict
  size : Nat
  setter_name : String
  getter_name : String
deriving DecidableEq, Repr

/-- `State.from_nddict`: push the host mirror into the device field
(`self.field.from_numpy(self.nddict.get_data())`). -/
def State.from_nddict (s : State) : State :=
  { s with field := s.nddict.data }

/-- `State.to_nddict`: pull the device field into the host mirror
(`self.nddict.set_data(self.field.to_numpy())`). -/
def State.to_nddict (s : State) : State :=
  { s with nddict := { s.nddict with data := s.field } }

/-- `State.randomise`: randomise the host mirror, then push to device. -/
def State.randomise (s : State) : State :=
  State.from_nddict { s with nddict := s.nddict.randomise }

/-- `State.from_vec`: sync device→host, load the vector into the mirror,
sync host→device. -/
def State.from_vec (s : State) (vec : List Int) : Except Err State :=
  let s1 := s.to_nddict
  (s1.nddict.from_vec vec).map
    (fun nd => State.from_nddict { s1 with nddict := nd })

/-- `State.to_vec`: sync device→host, then extract the mirror's vector. -/
def State.to_vec (s : State) : List Int :=
  s.to_nddict.nddict.to_vec

/-- `State.attr_from_vec`: sync device→host, per-attribute load, sync
host→device. -/
def State.attr_from_vec (s : State) (attr : String) (vec : List Int) :
    Except Err State :=
  let s1 := s.to_nddict
  (s1.nddict.attr_from_vec attr vec).map
    (fun nd => State.from_nddict { s1 with nddict := nd })

/-- `State.attr_to_vec`: sync device→host, then per-attribute extract. -/
def State.attr_to_vec (s : State) (attr : String) : Except Err (List Int) :=
  s.to_nddict.nddict.attr_to_vec attr

/-- `State.slice_from_vec`: sync device→host, slice load, sync
host→device. -/
def State.slice_from_vec (s : State) (start stop : Nat) (vec : List Int) :
    Except Err State :=
  let s1 := s.to_nddict
  (s1.nddict.slice_from_vec start stop vec).map
    (fun nd => State.from_nddict { s1 with nddict := nd })

/-- `State.slice_to_vec`: sync device→host, then slice extract. -/
def State.slice_to_vec (s : State) (start stop : Nat) : List Int :=
  s.to_nddict.nddict.slice_to_vec start stop

/-- `State.attr_slice_from_vec`: sync device→host, attribute-slice load,
sync host→device. -/
def State.attr_slice_from_vec (s : State) (attr : String) (start stop : Nat)
    (vec : List Int) : Except Err State :=
  let s1 := s.to_nddict
  (s1.nddict.attr_slice_from_vec attr start stop vec).map
    (fun nd => State.from_nddict { s1 with nddict := nd })

/-- `State.attr_slice_to_vec`: sync device→host, then attribute-slice
extract. -/
def State.attr_slice_to_vec (s : State) (attr : String) (start stop : Nat) :
    Except Err (List Int) :=
  s.to_nddict.nddict.attr_slice_to_vec attr start stop

/-- `create_npndarray_dict`: build the host-mirror spec from the schema,
failing with NotImplementedError at the first element type that has no
host equivalent. -/
def buildNdSpec : Schema → Except Err (List (String × NpType × Int × Int))
  | [] => .ok []
  | (k, t, mn, mx) :: rest =>
    match TiNpTypeMap t with
    | some np => (buildNdSpec rest).map (fun r => (k, np, mn, mx) :: r)
    | none => .error .notImplementedError

/-- Scalar elements per attribute implied by the shape (the schema types
modelled here are scalar: one element per instance). -/
def shapeCount (shape : List Nat) : Nat := shape.prod

/-- `State.__init__` / `setup_data`: allocate the device field and the
host mirror from the schema and shape (fresh buffers zero-initialised, as
taichi fields and numpy arrays are), record `size := nddict.size`,
randomise when requested, and derive the canonical accessor names. The
iml/osc flags drive only external registration, modelled by the pure
`setup_accessors` function below. -/
def State.mkNew (tvName name : String) (dict : Schema) (shape : List Nat)
    (randomise : Bool) : Except Err State :=
  (buildNdSpec dict).map (fun ndspec =>
    let data0 := dict.map (fun _ => List.replicate (shapeCount shape) (0 : Int))
    let nd0 : NpNdarrayDict := ⟨ndspec, shape, data0⟩
    let s0 : State :=
      { name := name, dict := dict, shape := shape,
        field := data0, nddict := nd0, size := nd0.size,
        setter_name := tvName ++ "_set_" ++ name,
        getter_name := tvName ++ "_get_" ++ name }
    if randomise then s0.randomise else s0)

/-- An entry of the registry's backing dict: the raw `tv` backreference
(or any other plain object), a plain integer (the `size` accumulator), or
a structured block. -/
inductive SDEntry where
  | raw
  | intVal (n : Int)
  | block (s : State)
deriving DecidableEq, Repr

/-- A value passed to `StateDict.set` / `add` (the Python `kwargs`): a
dict declaration, a positional-tuple declaration, an int, or any other
object. A declaration carries the `State` constructor arguments that
shape the registry's contents (schema, shape, randomise flag); the
iml/osc accessor flags only drive external registration, modelled by
`setup_accessors`. -/
inductive KVal where
  | dictSpec (state : Schema) (shape : List Nat) (randomise : Bool)
  | tupleSpec (state : Schema) (shape : List Nat) (randomise : Bool)
  | intVal (n : Int)
  | other
deriving DecidableEq, Repr

def KVal.isDict : KVal → Bool
  | .dictSpec _ _ _ => true
  | _ => false

def KVal.isTuple : KVal → Bool
  | .tupleSpec _ _ _ => true
  | _ => false

def KVal.isInt : KVal → Bool
  | .intVal _ => true
  | _ => false

/-- The dict entry a non-declaration value is stored as. -/
def KVal.asEntry : KVal → SDEntry
  | .intVal n => .intVal n
  | _ => .raw

/-- The registry (`StateDict`, a `dotdict`): an ordered association list
of entries, plus the owning context's clean name, used to derive accessor
route names (`self.tv.name_clean`). Attribute access and item access
share the same slots. -/
structure StateDict where
  tvName : String
  entries : List (String × SDEntry)
deriving DecidableEq, Repr

/-- First entry bound to a key (Python attribute/item lookup). -/
def lookupE : List (String × SDEntry) → String → Option SDEntry
  | [], _ => none
  | (k, v) :: rest, key => if k = key then some v else lookupE rest key

/-- `name in self` on the backing dict. -/
def StateDict.contains (d : StateDict) (name : String) : Bool :=
  (lookupE d.entries name).isSome

/-- Python item assignment `self[name] = v`: rebind the existing entry in
place, or append a new one. -/
def upsert : List (String × SDEntry) → String → SDEntry →
    List (String × SDEntry)
  | [], key, v => [(key, v)]
  | (k, w) :: rest, key, v =>
    if k = key then (key, v) :: rest else (k, w) :: upsert rest key v

/-- Shared body of the dict- and tuple-declaration branches of
`StateDict.add`: construct the `State`, insert it, then bump the `size`
accumulator through the same attribute path (`self.size += self[name].size`),
which fails when the `size` slot does not hold an int. An error is
reported next to the dict as mutated so far (a Python exception leaves
prior mutations in place). -/
def StateDict.declBranch (d : StateDict) (name : String) (st : Schema)
    (sh : List Nat) (r : Bool) : StateDict × Option Err :=
  match State.mkNew d.tvName name st sh r with
  | .error e => (d, some e)
  | .ok s =>
    let d1 : StateDict := { d with entries := upsert d.entries name (.block s) }
    match lookupE d1.entries "size" with
    | some (.intVal m) =>
      ({ d1 with entries := upsert d1.entries "size" (.intVal (m + (s.size : Int))) },
        none)
    | some _ => (d1, some .typeError)
    | none => (d1, some .keyError)

/-- `StateDict.add`: the branch ladder of the source — the raw `tv`
backreference, the integer `size` slot, a dict declaration, a tuple
declaration, and a TypeError otherwise. -/
def StateDict.add (d : StateDict) (name : String) (v : KVal) :
    StateDict × Option Err :=
  if name = "tv" ∧ ¬ v.isDict ∧ ¬ v.isTuple then
    ({ d with entries := upsert d.entries name v.asEntry }, none)
  else if name = "size" ∧ v.isInt then
    ({ d with entries := upsert d.entries name v.asEntry }, none)
  else
    match v with
    | .dictSpec st sh r => d.declBranch name st sh r
    | .tupleSpec st sh r => d.declBranch name st sh r
    | _ => (d, some .typeError)

/-- `StateDict.set` (also `__setattr__`): the duplicate-name guard — the
reserved `size` key is exempt — then `add`; the try/except in the source
only logs and re-raises, so errors pass through unchanged. -/
def StateDict.set (d : StateDict) (name : String) (v : KVal) :
    StateDict × Option Err :=
  if d.contains name ∧ name ≠ "size" then (d, some .valueError)
  else d.add name v

/-- `StateDict.__init__`: `self.tv = tolvera; self.size = 0`, both routed
through `__setattr__` and hence through `set`. -/
def StateDict.init (tvName : String) : StateDict :=
  ((({ tvName := tvName, entries := [] } : StateDict).set "tv" .other).1.set
    "size" (.intVal 0)).1

/-- Look up a structured block (`self.tv.s[state]` followed by a `.size`
access, which requires the entry to be a block). -/
def StateDict.lookupBlock (d : StateDict) (name : String) : Option State :=
  match lookupE d.entries name with
  | some (.block s) => some s
  | _ => none

/-- `StateDict.get_size` over a list of names (the source wraps a single
string into a one-element list first). -/
def StateDict.get_size (d : StateDict) : List String → Except Err Nat
  | [] => .ok 0
  | nm :: rest =>
    match d.lookupBlock nm with
    | some s => (d.get_size rest).map (fun m => s.size + m)
    | none => .error .keyError

/-- The per-block loop of `StateDict.from_vec`: walk the names, carve
`vector[vec_start : vec_start + s.size]` for each, delegate to the
block's whole-block load, and advance `vec_start`. The source mutates
each looked-up block in place; rebinding the entry models that. An error
propagates with the dict as mutated so far. -/
def StateDict.fromVecLoop : StateDict → List Int → List String → Nat →
    StateDict × Option Err
  | d, _, [], _ => (d, none)
  | d, vector, nm :: rest, vec_start =>
    match d.lookupBlock nm with
    | none => (d, some .keyError)
    | some s =>
      match s.from_vec ((vector.drop vec_start).take s.size) with
      | .error e => (d, some e)
      | .ok s2 =>
        StateDict.fromVecLoop
          { d with entries := upsert d.entries nm (.block s2) }
          vector rest (vec_start + s.size)

/-- `StateDict.from_vec`: sum the named blocks' sizes, assert that the
sum equals the vector's length (before any block is touched), then load
each chunk in name order. -/
def StateDict.from_vec (d : StateDict) (states : List String)
    (vector : List Int) : StateDict × Option Err :=
  match d.get_size states with
  | .error e => (d, some e)
  | .ok n =>
    if n = vector.length then d.fromVecLoop vector states 0
    else (d, some .assertionError)

/-- The structured blocks of the registry, in entry order. -/
def StateDict.blocks (d : StateDict) : List (String × State) :=
  d.entries.filterMap (fun e =>
    match e.2 with
    | .block s => some (e.1, s)
    | _ => none)

/-- Sum of `size` over all structured blocks of the registry. -/
def StateDict.sumBlockSizes (d : StateDict) : Nat :=
  (d.blocks.map (fun b => b.2.size)).sum

/-- The integer `size` accumulator slot, when it holds an int. -/
def StateDict.sizeEntry (d : StateDict) : Option Int :=
  match lookupE d.entries "size" with
  | some (.intVal n) => some n
  | _ => none

/-- A list of entries filtered down to its blocks. -/
def blocksOfEntries (es : List (String × SDEntry)) : List (String × State) :=
  es.filterMap (fun e =>
    match e.2 with
    | .block s => some (e.1, s)
    | _ => none)

/-- The concatenation of the named blocks' whole-block vectors, in name
order (an unknown name contributes nothing; the theorems below require
every name to resolve). -/
def StateDict.vecsOf (d : StateDict) (states : List String) : List Int :=
  (states.map (fun nm =>
    match d.lookupBlock nm with
    | some s => s.to_vec
    | none => [])).flatten

/-- The sum of the named blocks' sizes, in name order. -/
def sumSizes (d : StateDict) (states : List String) : Nat :=
  (states.map (fun nm =>
    match d.lookupBlock nm with
    | some s => s.size
    | none => 0)).sum

/-- The handler a route is bound to, named after the `State` method the
source passes to the protocol registration call (the positional-writer
and `_randomise` method bodies are not among the given sources; the spec
describes their granularity, which the tag records). -/
inductive Handler where
  | randomise
  | setStateIdxFromList
  | setStateRowFromList
  | setStateColFromList
  | setStateAllFromList
  | setAttrIdx (attr : String)
  | setAttrRow (attr : String)
  | setAttrCol (attr : String)
  | setAttrAll (attr : String)
deriving DecidableEq, Repr

/-- The expected-list-length argument of `receive_list_with_idx`: a
literal, or a reference to one of the block's length attributes
(`getattr(self, 'len_state_idx')` and friends, which live outside the
given sources). -/
inductive LenRef where
  | lit (n : Nat)
  | lenStateIdx
  | lenStateRow
  | lenStateCol
  | lenStateAll
  | lenAttrRow
  | lenAttrCol
  | lenAttrAll
deriving DecidableEq, Repr

/-- One registration performed by the accessor-generation layer: an iml
`add_instance`, an osc `receive_args_inline` bound to a setter-side
handler, an osc `receive_list_with_idx` positional writer, or the osc
getter registration carrying its per-argument range tuples. -/
inductive Reg where
  | imlInstance (name : String)
  | oscInline (route : String) (h : Handler)
  | oscListWithIdx (route : String) (h : Handler) (idxArgs : Nat)
      (len : LenRef) (attr : Option String)
  | oscGetterReg (route : String) (i j : Int × Int × Int)
      (attr : String × String × String)
deriving DecidableEq, Repr

/-- `State.handle_get_set`: `enabled` iff a flag was given (a bare string
is first wrapped into a one-element tuple, so the input is modelled as an
optional list); the get/set components hold only when enabled. -/
def handle_get_set (flag : Option (List String)) : Bool × Bool × Bool :=
  match flag with
  | none => (false, false, false)
  | some l => (true, l.contains "get", l.contains "set")

/-- Whether a flag value requests the given direction. -/
def flagHas (flag : Option (List String)) (dir : String) : Bool :=
  match flag with
  | none => false
  | some l => l.contains dir

/-- `State.add_iml_setters`: one mapping-layer instance registration on
the canonical setter name. -/
def add_iml_setters (setter_name : String) : List Reg :=
  [Reg.imlInstance setter_name]

/-- `State.add_iml_getters`: one mapping-layer instance registration on
the canonical getter name. -/
def add_iml_getters (getter_name : String) : List Reg :=
  [Reg.imlInstance getter_name]

/-- `State.add_iml_osc_setters`: empty body in the source. -/
def add_iml_osc_setters (_setter_name : String) : List Reg := []

/-- `State.add_iml_osc_getters`: empty body in the source. -/
def add_iml_osc_getters (_getter_name : String) : List Reg := []

/-- `State.add_osc_setters`: the `_randomise` route (bound to the
re-randomising handler), the four whole-block positional writers, and
four per-attribute writers for every schema attribute. -/
def add_osc_setters (setter_name : String) (dict : Schema) : List Reg :=
  [Reg.oscInline (setter_name ++ "_randomise") Handler.randomise,
   Reg.oscListWithIdx (setter_name ++ "_idx") Handler.setStateIdxFromList 2
     LenRef.lenStateIdx none,
   Reg.oscListWithIdx (setter_name ++ "_row") Handler.setStateRowFromList 1
     LenRef.lenStateRow none,
   Reg.oscListWithIdx (setter_name ++ "_col") Handler.setStateColFromList 1
     LenRef.lenStateCol none,
   Reg.oscListWithIdx (setter_name ++ "_all") Handler.setStateAllFromList 0
     LenRef.lenStateAll none] ++
  (dict.map (fun kv =>
    [Reg.oscListWithIdx (setter_name ++ "_" ++ kv.1 ++ "_idx")
       (Handler.setAttrIdx kv.1) 2 (LenRef.lit 1) (some kv.1),
     Reg.oscListWithIdx (setter_name ++ "_" ++ kv.1 ++ "_row")
       (Handler.setAttrRow kv.1) 1 LenRef.lenAttrRow (some kv.1),
     Reg.oscListWithIdx (setter_name ++ "_" ++ kv.1 ++ "_col")
       (Handler.setAttrCol kv.1) 1 LenRef.lenAttrCol (some kv.1),
     Reg.oscListWithIdx (setter_name ++ "_" ++ kv.1 ++ "_all")
       (Handler.setAttrAll kv.1) 0 LenRef.lenAttrAll (some kv.1)])).flatten

/-- `State.add_osc_getters`: one `receive_args_inline` registration per
schema attribute, each on the block's bare getter route, with the i and j
argument ranges built from the attribute's schema triple `v` as
`(int(v[0]), int(v[0]), int(v[1]))` — the type entry twice, then the min
entry — and the attr range as the attribute name repeated. -/
def add_osc_getters (getter_name : String) (dict : Schema) : List Reg :=
  dict.map (fun kv =>
    Reg.oscGetterReg getter_name
      (kv.2.1.code, kv.2.1.code, kv.2.2.1)
      (kv.2.1.code, kv.2.1.code, kv.2.2.1)
      (kv.1, kv.1, kv.1))

/-- `State.setup_iml_mapping`: setter instances when iml set was
requested, getter instances when iml get was requested. -/
def setup_iml_mapping (setter_name getter_name : String)
    (iml_get iml_set : Bool) : List Reg :=
  (if iml_set then add_iml_setters setter_name else []) ++
  (if iml_get then add_iml_getters getter_name else [])

/-- `State.setup_osc_mapping`: osc setters when osc set was requested
(plus the empty iml-osc setter body when iml set was requested too), osc
getters when osc get was requested (plus the empty iml-osc getter
body). -/
def setup_osc_mapping (setter_name getter_name : String) (dict : Schema)
    (osc_get osc_set iml_get iml_set : Bool) : List Reg :=
  (if osc_set then
    add_osc_setters setter_name dict ++
      (if iml_set then add_iml_osc_setters setter_name else [])
   else []) ++
  (if osc_get then
    add_osc_getters getter_name dict ++
      (if iml_get then add_iml_osc_getters getter_name else [])
   else [])

/-- `State.setup_accessors`: derive the canonical accessor names, decode
the flags, and register with each protocol only when the context's
protocol is available (`self.tv.iml is not False`, same for osc) and the
block enabled it. -/
def setup_accessors (tvNameClean name : String) (dict : Schema)
    (tvIml tvOsc : Bool) (iml osc : Option (List String)) : List Reg :=
  let setter_name := tvNameClean ++ "_set_" ++ name
  let getter_name := tvNameClean ++ "_get_" ++ name
  let imlF := handle_get_set iml
  let oscF := handle_get_set osc
  (if tvIml ∧ imlF.1 then
    setup_iml_mapping setter_name getter_name imlF.2.1 imlF.2.2
   else []) ++
  (if tvOsc ∧ oscF.1 then
    setup_osc_mapping setter_name getter_name dict oscF.2.1 oscF.2.2
      imlF.2.1 imlF.2.2
   else [])

/-- Whether a registration hands the routing layer a set-capable entry
point (a positional writer or the randomiser). -/
def Reg.isOscSet : Reg → Bool
  | .oscInline _ _ => true
  | .oscListWithIdx _ _ _ _ _ => true
  | _ => false

/-- Whether a registration hands the routing layer a getter. -/
def Reg.isOscGet : Reg → Bool
  | .oscGetterReg _ _ _ _ => true
  | _ => false

/-- Modelled from the spec: `State.get` (the point-access helper is not
among the given sources) reads a single element's current
device-synchronized value: pull device→host, then read the host mirror
at the row-major (i, j) coordinate of the attribute; an unknown
attribute or an out-of-range coordinate yields None. -/
def State.get (s : State) (ij : Nat × Nat) (attrName : String) :
    Option Int :=
  let s1 := s.to_nddict
  match attrIdx s1.nddict.spec attrName with
  | some idx => (s1.nddict.data.getD idx [])[ij.1 * s.shape.getD 1 1 + ij.2]?
  | none => none

/-- A message dispatched back through the routing layer by a getter,
modelling `return_to_sender_by_name((route, attribute, ret),
client_name)`. -/
structure OscMsg where
  route : String
  attrName : String
  value : Int
  client : String
deriving DecidableEq, Repr

/-- Modelled from the spec: the routing layer's deterministic canonical
name→route translation (`pascal_to_path` lives in the external osc
map). -/
def pascal_to_path (name : String) : String := "/" ++ name

/-- `State.osc_getter`: read the (i, j) element of the attribute; when
the value is not None, derive the reply route from the canonical getter
name and dispatch the value back to the requesting peer; return the
value either way. The second component collects what was sent to the
routing layer. -/
def State.osc_getter (s : State) (clientName : String) (i j : Nat)
    (attrName : String) : Option Int × List OscMsg :=
  let ret := s.get (i, j) attrName
  match ret with
  | some v =>
    (some v, [⟨pascal_to_path s.getter_name, attrName, v, clientName⟩])
  | none => (none, [])

/-- Replace the host mirror's payload while leaving the device field
alone: the stale-mirror adversary for the sync-discipline theorem. -/
def setHost (s : State) (hdata : List (List Int)) : State :=
  { s with nddict := { s.nddict with data := hdata } }

/-- A two-attribute float schema, the spec's running example. -/
def sampleSchema : Schema := [("x", TiType.f32, -1, 1), ("y", TiType.f32, -1, 1)]

/-- A registry holding two declared blocks `p` and `q` over
`sampleSchema` with shape (2,). -/
def sampleDict : StateDict :=
  (((StateDict.init "tv").set "p" (KVal.dictSpec sampleSchema [2] true)).1.set
    "q" (KVal.dictSpec sampleSchema [2] true)).1

/-- A block over `sampleSchema` whose host mirror is deliberately stale
with respect to its device field. -/
def sampleState : State :=
  { name := "p", dict := sampleSchema, shape := [2],
    field := [[1, 2], [3, 4]],
    nddict := ⟨[("x", NpType.nf32, -1, 1), ("y", NpType.nf32, -1, 1)], [2],
      [[9, 9], [9, 9]]⟩,
    size := 4, setter_name := "tv_set_p", getter_name := "tv_get_p" }

/-- `sampleState` after loading the whole-block vector [5, 5, 5, 5]. -/
def sampleWritten : State :=
  { name := "p", dict := sampleSchema, shape := [2],
    field := [[5, 5], [5, 5]],
    nddict := ⟨[("x", NpType.nf32, -1, 1), ("y", NpType.nf32, -1, 1)], [2],
      [[5, 5], [5, 5]]⟩,
    size := 4, setter_name := "tv_set_p", getter_name := "tv_get_p" }

theorem splitBySizes_flatten (l : List (List Int)) :
    splitBySizes (l.map List.length) l.flatten = l := by
  induction l with
  | nil => rfl
  | cons x xs ih =>
    simp only [List.map_cons, List.flatten_cons, splitBySizes,
      List.take_left, List.drop_left]
    exact congrArg (x :: ·) ih

theorem length_flatten_eq_sum (l : List (List Int)) :
    l.flatten.length = (l.map List.length).sum := by
  induction l with
  | nil => rfl
  | cons x xs ih => simp [List.flatten_cons, ih]

theorem from_vec_self (s : State) :
    s.from_vec s.to_vec = Except.ok (State.to_nddict s) := by
  have hlen : s.to_vec.length = (State.to_nddict s).nddict.size := by
    simp [State.to_vec, State.to_nddict, NpNdarrayDict.to_vec,
      NpNdarrayDict.size, length_flatten_eq_sum]
  simp only [State.from_vec, NpNdarrayDict.from_vec]
  rw [if_pos hlen]
  simp only [Except.map]
  congr 1
  simp [State.to_nddict, State.from_nddict, State.to_vec,
    NpNdarrayDict.to_vec, splitBySizes_flatten]

theorem to_nddict_to_vec (s : State) : (State.to_nddict s).to_vec = s.to_vec := by
  simp [State.to_vec, State.to_nddict]

/-- C5: for every block, feeding the block's own extracted whole-block
vector back through the whole-block load succeeds and is a no-op on
device state: a subsequent `to_vec` returns the same vector, and the
device field itself is unchanged. -/
theorem from_vec_to_vec_roundtrip (s : State) :
    ∃ s2, s.from_vec s.to_vec = Except.ok s2 ∧
      s2.to_vec = s.to_vec ∧ s2.field = s.field :=
  ⟨State.to_nddict s, from_vec_self s, to_nddict_to_vec s, rfl⟩

theorem lookupE_upsert (es : List (String × SDEntry)) (k : String)
    (v : SDEntry) (key : String) :
    lookupE (upsert es k v) key = if k = key then some v else lookupE es key := by
  induction es with
  | nil => by_cases h : k = key <;> simp [upsert, lookupE, h]
  | cons a rest ih =>
    obtain ⟨a1, a2⟩ := a
    by_cases h1 : a1 = k
    · subst h1
      by_cases h2 : a1 = key <;> simp [upsert, lookupE, h2]
    · by_cases h2 : a1 = key
      · subst h2
        have hk : ¬ k = a1 := fun h => h1 h.symm
        simp [upsert, lookupE, h1, hk]
      · simp [upsert, lookupE, h1, h2, ih]

theorem upsert_of_not_mem (es : List (String × SDEntry)) (k : String)
    (v : SDEntry) (h : lookupE es k = none) :
    upsert es k v = es ++ [(k, v)] := by
  induction es with
  | nil => rfl
  | cons a rest ih =>
    obtain ⟨a1, a2⟩ := a
    by_cases h1 : a1 = k
    · subst h1; simp [lookupE] at h
    · simp only [lookupE, if_neg h1] at h
      simp [upsert, h1, ih h]

theorem lookupE_append_left (es fs : List (String × SDEntry)) (k : String)
    (w : SDEntry) (h : lookupE es k = some w) :
    lookupE (es ++ fs) k = some w := by
  induction es with
  | nil => simp [lookupE] at h
  | cons a rest ih =>
    obtain ⟨a1, a2⟩ := a
    by_cases h1 : a1 = k
    · subst h1
      simp only [lookupE, if_pos rfl] at h ⊢
      exact h
    · simp only [lookupE, if_neg h1] at h ⊢
      exact ih h

theorem blocksOfEntries_append (es fs : List (String × SDEntry)) :
    blocksOfEntries (es ++ fs) = blocksOfEntries es ++ blocksOfEntries fs := by
  simp [blocksOfEntries]

theorem blocks_eq_blocksOfEntries (d : StateDict) :
    d.blocks = blocksOfEntries d.entries := rfl

theorem blocksOfEntries_upsert_intVal (es : List (String × SDEntry))
    (k : String) (m : Int) (w : SDEntry)
    (hw : lookupE es k = some w)
    (hnb : ∀ s, w ≠ SDEntry.block s) :
    blocksOfEntries (upsert es k (SDEntry.intVal m)) = blocksOfEntries es := by
  induction es with
  | nil => simp [lookupE] at hw
  | cons a rest ih =>
    obtain ⟨a1, a2⟩ := a
    by_cases h1 : a1 = k
    · subst h1
      have hw2 : a2 = w := by simpa [lookupE] using hw
      cases a2 with
      | block s => exact absurd hw2.symm (hnb s)
      | raw => simp [upsert, blocksOfEntries]
      | intVal nn => simp [upsert, blocksOfEntries]
    · simp only [lookupE, if_neg h1] at hw
      cases a2 <;> simp [upsert, h1, blocksOfEntries] at ih ⊢ <;>
        exact ih hw

theorem StateDict.declBranch_err (d : StateDict) (name : String)
    (st : Schema) (sh : List Nat) (r : Bool) (e : Err)
    (hmk : State.mkNew d.tvName name st sh r = Except.error e) :
    d.declBranch name st sh r = (d, some e) := by
  unfold StateDict.declBranch
  simp only [hmk]

theorem StateDict.declBranch_ok (d : StateDict) (name : String)
    (st : Schema) (sh : List Nat) (r : Bool) (s : State) (n : Int)
    (hmk : State.mkNew d.tvName name st sh r = Except.ok s)
    (hlook : lookupE d.entries "size" = some (SDEntry.intVal n))
    (hns : name ≠ "size") :
    d.declBranch name st sh r =
      ({ d with entries := (upsert (upsert d.entries name (SDEntry.block s))
          "size" (SDEntry.intVal (n + (s.size : Int)))) }, none) := by
  have hup : lookupE (upsert d.entries name (SDEntry.block s)) "size" =
      some (SDEntry.intVal n) := by
    rw [lookupE_upsert, if_neg hns]
    exact hlook
  unfold StateDict.declBranch
  simp only [hmk, hup]

theorem StateDict.declBranch_size_ne_none (d : StateDict) (st : Schema)
    (sh : List Nat) (r : Bool) :
    (d.declBranch "size" st sh r).2 ≠ none := by
  unfold StateDict.declBranch
  cases hmk : State.mkNew d.tvName "size" st sh r with
  | error e => simp
  | ok s =>
    have hup : lookupE (upsert d.entries "size" (SDEntry.block s)) "size" =
        some (SDEntry.block s) := by
      rw [lookupE_upsert, if_pos rfl]
    simp [hup]

/-- C1: after every successful declaration of a structured block, the
registry's accumulated `size` slot equals the sum of `size` over all
structured blocks: the insertion appends exactly the new block, adds
exactly that block's `size` to the accumulator, and removes nothing. -/
theorem statedict_declare_size_invariant (d : StateDict) (name : String)
    (v : KVal) (st : Schema) (sh : List Nat) (r : Bool) (n : Int)
    (hv : v = KVal.dictSpec st sh r ∨ v = KVal.tupleSpec st sh r)
    (hsz : d.sizeEntry = some n)
    (hinv : n = (d.sumBlockSizes : Int))
    (hok : (d.set name v).2 = none) :
    ∃ s, (d.set name v).1.blocks = d.blocks ++ [(name, s)] ∧
      (d.set name v).1.sizeEntry = some (n + (s.size : Int)) ∧
      (d.set name v).1.sizeEntry = some (((d.set name v).1.sumBlockSizes : Int)) := by
  classical
  have hlook : lookupE d.entries "size" = some (SDEntry.intVal n) := by
    unfold StateDict.sizeEntry at hsz
    cases h : lookupE d.entries "size" with
    | none => simp [h] at hsz
    | some w =>
      cases w with
      | raw => simp [h] at hsz
      | block s => simp [h] at hsz
      | intVal m =>
        simp only [h, Option.some_inj] at hsz
        rw [hsz]
  by_cases hdup : d.contains name ∧ name ≠ "size"
  · exfalso
    simp [StateDict.set, hdup] at hok
  have hset : d.set name v = d.add name v := by
    simp [StateDict.set, hdup]
  rw [hset] at hok ⊢
  have hadd : d.add name v = d.declBranch name st sh r := by
    rcases hv with h | h <;> subst h <;>
      simp [StateDict.add, KVal.isDict, KVal.isTuple, KVal.isInt]
  rw [hadd] at hok ⊢
  by_cases hns : name = "size"
  · subst hns
    exact absurd hok (StateDict.declBranch_size_ne_none d st sh r)
  cases hmk : State.mkNew d.tvName name st sh r with
  | error e =>
    rw [StateDict.declBranch_err d name st sh r e hmk] at hok
    simp at hok
  | ok s =>
    rw [StateDict.declBranch_ok d name st sh r s n hmk hlook hns] at hok ⊢
    have hnm : lookupE d.entries name = none := by
      by_cases hc : d.contains name
      · exact absurd ⟨hc, hns⟩ hdup
      · simpa [StateDict.contains, Option.not_isSome_iff_eq_none] using hc
    have e1 : upsert d.entries name (SDEntry.block s) =
        d.entries ++ [(name, SDEntry.block s)] :=
      upsert_of_not_mem _ _ _ hnm
    have hlook2 : lookupE (d.entries ++ [(name, SDEntry.block s)]) "size" =
        some (SDEntry.intVal n) :=
      lookupE_append_left _ _ _ _ hlook
    have hblocks : blocksOfEntries
        (upsert (upsert d.entries name (SDEntry.block s)) "size"
          (SDEntry.intVal (n + (s.size : Int)))) =
        blocksOfEntries d.entries ++ [(name, s)] := by
      rw [e1]
      rw [blocksOfEntries_upsert_intVal _ _ _ _ hlook2 (by intro t ht; cases ht)]
      simp [blocksOfEntries_append, blocksOfEntries]
    have hsum : (StateDict.mk d.tvName
        (upsert (upsert d.entries name (SDEntry.block s)) "size"
          (SDEntry.intVal (n + (s.size : Int))))).sumBlockSizes =
        d.sumBlockSizes + s.size := by
      simp only [StateDict.sumBlockSizes, blocks_eq_blocksOfEntries]
      rw [hblocks]
      simp
    refine ⟨s, hblocks, ?_, ?_⟩
    · simp [StateDict.sizeEntry, lookupE_upsert]
    · simp only [StateDict.sizeEntry]
      simp only [lookupE_upsert, if_pos rfl]
      rw [hsum, hinv]
      push_cast
      ring_nf

/-- C2: declaring a block under a name that already exists fails with the
duplicate-name ValueError and returns the registry exactly as it was —
accumulator and existing blocks included; the reserved integer `size` key
is the one name exempt from the guard: an integer assignment to it
succeeds. -/
theorem statedict_duplicate_rejected (d : StateDict) (name : String)
    (v : KVal) (hc : d.contains name = true) (hns : name ≠ "size") :
    d.set name v = (d, some Err.valueError) ∧
    ∀ m : Int, (d.set "size" (KVal.intVal m)).2 = none := by
  constructor
  · simp [StateDict.set, hc, hns]
  · intro m
    have h1 : d.set "size" (KVal.intVal m) = d.add "size" (KVal.intVal m) := by
      simp [StateDict.set]
    rw [h1]
    simp [StateDict.add, KVal.isInt, KVal.isDict, KVal.isTuple]

/-- C3: the registry's whole-vector load fails with the size-mismatch
assertion whenever the named blocks' summed sizes differ from the
vector's length, and the check happens before any block is mutated: the
registry comes back exactly as it was. -/
theorem statedict_from_vec_size_mismatch (d : StateDict)
    (states : List String) (vector : List Int) (n : Nat)
    (hsz : d.get_size states = Except.ok n) (hne : n ≠ vector.length) :
    d.from_vec states vector = (d, some Err.assertionError) := by
  unfold StateDict.from_vec
  simp [hsz, hne]

theorem get_size_ok (d : StateDict) (states : List String)
    (h : ∀ nm ∈ states, (d.lookupBlock nm).isSome) :
    d.get_size states = Except.ok (sumSizes d states) := by
  induction states with
  | nil => rfl
  | cons nm rest ih =>
    obtain ⟨s, hs⟩ := Option.isSome_iff_exists.mp (h nm (by simp))
    have ih2 := ih (fun x hx => h x (by simp [hx]))
    unfold StateDict.get_size
    rw [hs, ih2]
    simp [sumSizes, hs, Except.map]

theorem lookupBlock_upsert (d : StateDict) (k : String) (v : SDEntry)
    (key : String) :
    StateDict.lookupBlock ⟨d.tvName, upsert d.entries k v⟩ key =
      if k = key then
        (match v with
         | SDEntry.block s => some s
         | _ => none)
      else d.lookupBlock key := by
  unfold StateDict.lookupBlock
  simp only [lookupE_upsert]
  by_cases h : k = key
  · rw [if_pos h, if_pos h]
    cases v <;> rfl
  · rw [if_neg h, if_neg h]

theorem fromVecLoop_cons_none (d : StateDict) (vector : List Int)
    (a : String) (rest : List String) (k : Nat)
    (h : d.lookupBlock a = none) :
    StateDict.fromVecLoop d vector (a :: rest) k = (d, some Err.keyError) := by
  unfold StateDict.fromVecLoop
  simp only [h]

theorem fromVecLoop_cons_err (d : StateDict) (vector : List Int)
    (a : String) (rest : List String) (k : Nat) (s : State) (e : Err)
    (h1 : d.lookupBlock a = some s)
    (h2 : s.from_vec ((vector.drop k).take s.size) = Except.error e) :
    StateDict.fromVecLoop d vector (a :: rest) k = (d, some e) := by
  unfold StateDict.fromVecLoop
  simp only [h1, h2]

theorem fromVecLoop_cons_ok (d : StateDict) (vector : List Int)
    (a : String) (rest : List String) (k : Nat) (s s2 : State)
    (h1 : d.lookupBlock a = some s)
    (h2 : s.from_vec ((vector.drop k).take s.size) = Except.ok s2) :
    StateDict.fromVecLoop d vector (a :: rest) k =
      StateDict.fromVecLoop
        { d with entries := upsert d.entries a (SDEntry.block s2) }
        vector rest (k + s.size) := by
  conv_lhs => unfold StateDict.fromVecLoop
  simp only [h1, h2]

theorem fromVecLoop_lookup_outside (states : List String) :
    ∀ (d : StateDict) (vector : List Int) (k : Nat) (nm : String),
    nm ∉ states →
    ((StateDict.fromVecLoop d vector states k).1).lookupBlock nm =
      d.lookupBlock nm := by
  induction states with
  | nil => intro d vector k nm _; rfl
  | cons a rest ih =>
    intro d vector k nm h
    have hna : a ≠ nm := by
      intro he
      exact h (by simp [he])
    have hnr : nm ∉ rest := fun hr => h (by simp [hr])
    cases hlb : d.lookupBlock a with
    | none => rw [fromVecLoop_cons_none d vector a rest k hlb]
    | some s =>
      cases hfv : s.from_vec ((vector.drop k).take s.size) with
      | error e => rw [fromVecLoop_cons_err d vector a rest k s e hlb hfv]
      | ok s2 =>
        rw [fromVecLoop_cons_ok d vector a rest k s s2 hlb hfv]
        rw [ih _ vector (k + s.size) nm hnr]
        rw [lookupBlock_upsert d a (SDEntry.block s2) nm]
        rw [if_neg hna]

theorem fromVecLoop_concat (states : List String) :
    ∀ (d : StateDict) (pre : List Int),
    states.Nodup →
    (∀ nm ∈ states, ∃ s, d.lookupBlock nm = some s ∧ s.size = s.to_vec.length) →
    ∃ d2, StateDict.fromVecLoop d (pre ++ d.vecsOf states) states pre.length =
      (d2, none) ∧
      ∀ nm ∈ states, ∃ s s2, d.lookupBlock nm = some s ∧
        d2.lookupBlock nm = some s2 ∧ s2.to_vec = s.to_vec := by
  induction states with
  | nil =>
    intro d pre _ _
    exact ⟨d, rfl, by simp⟩
  | cons a rest ih =>
    intro d pre hnd hwf
    obtain ⟨s, hs, hsz⟩ := hwf a (by simp)
    have har : a ∉ rest := (List.nodup_cons.mp hnd).1
    have hndr : rest.Nodup := (List.nodup_cons.mp hnd).2
    have hv : d.vecsOf (a :: rest) = s.to_vec ++ d.vecsOf rest := by
      simp [StateDict.vecsOf, hs]
    set d1 : StateDict :=
      { d with entries := upsert d.entries a (SDEntry.block (State.to_nddict s)) }
      with hd1
    have hlb1 : ∀ nm ∈ rest, d1.lookupBlock nm = d.lookupBlock nm := by
      intro nm hm
      rw [hd1, lookupBlock_upsert d a _ nm, if_neg]
      intro he
      exact har (he ▸ hm)
    have hvec1 : d1.vecsOf rest = d.vecsOf rest := by
      unfold StateDict.vecsOf
      congr 1
      apply List.map_congr_left
      intro nm hm
      rw [hlb1 nm hm]
    have hwf1 : ∀ nm ∈ rest, ∃ t, d1.lookupBlock nm = some t ∧
        t.size = t.to_vec.length := by
      intro nm hm
      obtain ⟨t, ht, htl⟩ := hwf nm (by simp [hm])
      exact ⟨t, by rw [hlb1 nm hm]; exact ht, htl⟩
    have hchunk : (((pre ++ d.vecsOf (a :: rest)).drop pre.length).take s.size) =
        s.to_vec := by
      rw [List.drop_left, hv, hsz, List.take_left]
    obtain ⟨d2, hloop, hres⟩ := ih d1 (pre ++ s.to_vec) hndr hwf1
    refine ⟨d2, ?_, ?_⟩
    · rw [fromVecLoop_cons_ok d (pre ++ d.vecsOf (a :: rest)) a rest pre.length
        s (State.to_nddict s) hs (by rw [hchunk]; exact from_vec_self s)]
      have harg : pre ++ s.to_vec ++ d1.vecsOf rest = pre ++ d.vecsOf (a :: rest) := by
        rw [hvec1, hv, List.append_assoc]
      have hlen2 : (pre ++ s.to_vec).length = pre.length + s.size := by
        simp [hsz]
      rw [harg, hlen2] at hloop
      exact hloop
    · intro nm hm
      rcases List.mem_cons.mp hm with he | hmr
      · have hnmr : nm ∉ rest := by rw [he]; exact har
        have h2 : d2.lookupBlock nm = d1.lookupBlock nm := by
          have h4 := fromVecLoop_lookup_outside rest d1
            (pre ++ s.to_vec ++ d1.vecsOf rest) (pre ++ s.to_vec).length nm hnmr
          rw [hloop] at h4
          exact h4
        have h3 : d1.lookupBlock nm = some (State.to_nddict s) := by
          rw [hd1, lookupBlock_upsert d a _ nm, if_pos he.symm]
        refine ⟨s, State.to_nddict s, ?_, by rw [h2, h3], to_nddict_to_vec s⟩
        rw [he]
        exact hs
      · obtain ⟨t, t2, ht, ht2, htv⟩ := hres nm hmr
        exact ⟨t, t2, by rw [← hlb1 nm hmr]; exact ht, ht2, htv⟩

theorem vecsOf_length (d : StateDict) (states : List String)
    (hwf : ∀ nm ∈ states, ∃ s, d.lookupBlock nm = some s ∧
      s.size = s.to_vec.length) :
    (d.vecsOf states).length = sumSizes d states := by
  induction states with
  | nil => rfl
  | cons a rest ih =>
    obtain ⟨s, hs, hsz⟩ := hwf a (by simp)
    have ih2 := ih (fun nm hm => hwf nm (by simp [hm]))
    simp only [StateDict.vecsOf, sumSizes, List.map_cons, List.flatten_cons,
      List.sum_cons, List.length_append, hs] at ih2 ⊢
    rw [ih2, hsz]

/-- C6: concatenating the named blocks' whole-block vectors in name order
and feeding the concatenation to the registry's `from_vec` with the same
name order succeeds (the vector partitions contiguously, each chunk sized
by that block's `size`) and reproduces every block's original per-block
vector exactly. -/
theorem statedict_from_vec_concat_roundtrip (d : StateDict)
    (states : List String) (hnd : states.Nodup)
    (hwf : ∀ nm ∈ states, ∃ s, d.lookupBlock nm = some s ∧
      s.size = s.to_vec.length) :
    ∃ d2, d.from_vec states (d.vecsOf states) = (d2, none) ∧
      ∀ nm ∈ states, ∃ s s2, d.lookupBlock nm = some s ∧
        d2.lookupBlock nm = some s2 ∧ s2.to_vec = s.to_vec := by
  have hsome : ∀ nm ∈ states, (d.lookupBlock nm).isSome := by
    intro nm hm
    obtain ⟨s, hs, _⟩ := hwf nm hm
    simp [hs]
  have hg := get_size_ok d states hsome
  have hlen := vecsOf_length d states hwf
  obtain ⟨d2, hloop, hres⟩ := fromVecLoop_concat states d [] hnd hwf
  refine ⟨d2, ?_, hres⟩
  unfold StateDict.from_vec
  simp only [hg, hlen.symm, if_pos]
  simpa using hloop

theorem setter_getter_name_ne (a n : String) :
    a ++ "_set_" ++ n ≠ a ++ "_get_" ++ n := by
  intro h
  have h2 : (a ++ "_set_" ++ n).data = (a ++ "_get_" ++ n).data := by rw [h]
  simp only [String.data_append] at h2
  rw [List.append_assoc, List.append_assoc] at h2
  have h4 := List.append_cancel_left h2
  simp at h4

theorem mem_of_mem_ite_nil {α : Type} {c : Prop} [Decidable c]
    {l : List α} {r : α} (h : r ∈ (if c then l else [])) : c ∧ r ∈ l := by
  by_cases hc : c
  · rw [if_pos hc] at h
    exact ⟨hc, h⟩
  · rw [if_neg hc] at h
    simp at h

theorem mem_setters_flags (sn : String) (dict : Schema) (r : Reg)
    (hr : r ∈ add_osc_setters sn dict) :
    r.isOscSet = true ∧ r.isOscGet = false := by
  unfold add_osc_setters at hr
  rcases List.mem_append.mp hr with h | h
  · simp only [List.mem_cons, List.not_mem_nil, or_false] at h
    rcases h with rfl | rfl | rfl | rfl | rfl <;> exact ⟨rfl, rfl⟩
  · rcases List.mem_flatten.mp h with ⟨l, hl, hrl⟩
    rcases List.mem_map.mp hl with ⟨kv, _, rfl⟩
    simp only [List.mem_cons, List.not_mem_nil, or_false] at hrl
    rcases hrl with rfl | rfl | rfl | rfl <;> exact ⟨rfl, rfl⟩

theorem mem_getters_flags (gn : String) (dict : Schema) (r : Reg)
    (hr : r ∈ add_osc_getters gn dict) :
    r.isOscSet = false ∧ r.isOscGet = true := by
  rcases List.mem_map.mp hr with ⟨kv, _, rfl⟩
  exact ⟨rfl, rfl⟩

theorem mem_iml_mapping_flags (sn gn : String) (g s : Bool) (r : Reg)
    (hr : r ∈ setup_iml_mapping sn gn g s) :
    r.isOscSet = false ∧ r.isOscGet = false := by
  unfold setup_iml_mapping at hr
  rcases List.mem_append.mp hr with h | h
  · obtain ⟨_, h2⟩ := mem_of_mem_ite_nil h
    simp only [add_iml_setters, List.mem_singleton] at h2
    subst h2
    exact ⟨rfl, rfl⟩
  · obtain ⟨_, h2⟩ := mem_of_mem_ite_nil h
    simp only [add_iml_getters, List.mem_singleton] at h2
    subst h2
    exact ⟨rfl, rfl⟩

theorem exists_oscSet_osc_mapping (sn gn : String) (dict : Schema)
    (g s ig is2 : Bool) :
    (∃ r ∈ setup_osc_mapping sn gn dict g s ig is2, r.isOscSet = true) ↔
      s = true := by
  constructor
  · rintro ⟨r, hr, hset⟩
    unfold setup_osc_mapping at hr
    rcases List.mem_append.mp hr with h | h
    · exact (mem_of_mem_ite_nil h).1
    · obtain ⟨_, h2⟩ := mem_of_mem_ite_nil h
      rcases List.mem_append.mp h2 with h3 | h3
      · rw [(mem_getters_flags gn dict r h3).1] at hset
        exact absurd hset (by simp)
      · obtain ⟨_, h4⟩ := mem_of_mem_ite_nil h3
        simp [add_iml_osc_getters] at h4
  · intro hs
    refine ⟨Reg.oscInline (sn ++ "_randomise") Handler.randomise, ?_, rfl⟩
    unfold setup_osc_mapping
    apply List.mem_append_left
    rw [if_pos hs]
    apply List.mem_append_left
    simp [add_osc_setters]

theorem exists_oscGet_osc_mapping (sn gn : String) (dict : Schema)
    (g s ig is2 : Bool) (hd : dict ≠ []) :
    (∃ r ∈ setup_osc_mapping sn gn dict g s ig is2, r.isOscGet = true) ↔
      g = true := by
  constructor
  · rintro ⟨r, hr, hget⟩
    unfold setup_osc_mapping at hr
    rcases List.mem_append.mp hr with h | h
    · obtain ⟨_, h2⟩ := mem_of_mem_ite_nil h
      rcases List.mem_append.mp h2 with h3 | h3
      · rw [(mem_setters_flags sn dict r h3).2] at hget
        exact absurd hget (by simp)
      · obtain ⟨_, h4⟩ := mem_of_mem_ite_nil h3
        simp [add_iml_osc_setters] at h4
    · exact (mem_of_mem_ite_nil h).1
  · intro hg
    cases dict with
    | nil => exact absurd rfl hd
    | cons kv rest =>
      refine ⟨Reg.oscGetterReg gn
        (kv.2.1.code, kv.2.1.code, kv.2.2.1)
        (kv.2.1.code, kv.2.1.code, kv.2.2.1)
        (kv.1, kv.1, kv.1), ?_, rfl⟩
      unfold setup_osc_mapping
      apply List.mem_append_right
      rw [if_pos hg]
      apply List.mem_append_left
      simp [add_osc_getters]

theorem imlInstance_not_mem_osc_mapping (sn gn x : String) (dict : Schema)
    (g s ig is2 : Bool) :
    Reg.imlInstance x ∉ setup_osc_mapping sn gn dict g s ig is2 := by
  intro h
  unfold setup_osc_mapping at h
  rcases List.mem_append.mp h with h | h
  · obtain ⟨_, h2⟩ := mem_of_mem_ite_nil h
    rcases List.mem_append.mp h2 with h3 | h3
    · have := (mem_setters_flags sn dict _ h3).1
      simp [Reg.isOscSet] at this
    · obtain ⟨_, h4⟩ := mem_of_mem_ite_nil h3
      simp [add_iml_osc_setters] at h4
  · obtain ⟨_, h2⟩ := mem_of_mem_ite_nil h
    rcases List.mem_append.mp h2 with h3 | h3
    · have := (mem_getters_flags gn dict _ h3).2
      simp [Reg.isOscGet] at this
    · obtain ⟨_, h4⟩ := mem_of_mem_ite_nil h3
      simp [add_iml_osc_getters] at h4

theorem imlInstance_mem_iml_mapping_set (sn gn : String) (g s : Bool)
    (hne : sn ≠ gn) :
    (Reg.imlInstance sn ∈ setup_iml_mapping sn gn g s) ↔ s = true := by
  unfold setup_iml_mapping
  constructor
  · intro h
    rcases List.mem_append.mp h with h2 | h2
    · exact (mem_of_mem_ite_nil h2).1
    · obtain ⟨_, h3⟩ := mem_of_mem_ite_nil h2
      simp only [add_iml_getters, List.mem_singleton, Reg.imlInstance.injEq] at h3
      exact absurd h3 hne
  · intro hs
    apply List.mem_append_left
    rw [if_pos hs]
    simp [add_iml_setters]

theorem imlInstance_mem_iml_mapping_get (sn gn : String) (g s : Bool)
    (hne : sn ≠ gn) :
    (Reg.imlInstance gn ∈ setup_iml_mapping sn gn g s) ↔ g = true := by
  unfold setup_iml_mapping
  constructor
  · intro h
    rcases List.mem_append.mp h with h2 | h2
    · obtain ⟨_, h3⟩ := mem_of_mem_ite_nil h2
      simp only [add_iml_setters, List.mem_singleton, Reg.imlInstance.injEq] at h3
      exact absurd h3.symm hne
    · exact (mem_of_mem_ite_nil h2).1
  · intro hg
    apply List.mem_append_right
    rw [if_pos hg]
    simp [add_iml_getters]

/-- C4: with both external protocols available in the context, an
external-protocol accessor is generated if and only if that protocol's
corresponding get or set flag was requested for the block; the
mapping-layer (iml) and routing-layer (osc) flags are independent of each
other and of direction — each iff's right-hand side mentions only its own
protocol's flag, so a block declared with only mapping-layer get (its osc
flag absent) yields no set-capable routing-layer registration even while
the routing layer itself is enabled. -/
theorem accessor_generation_iff (a n : String) (dict : Schema)
    (iml osc : Option (List String)) (hdict : dict ≠ []) :
    ((∃ r ∈ setup_accessors a n dict true true iml osc, r.isOscSet = true) ↔
      flagHas osc "set" = true) ∧
    ((∃ r ∈ setup_accessors a n dict true true iml osc, r.isOscGet = true) ↔
      flagHas osc "get" = true) ∧
    ((Reg.imlInstance (a ++ "_set_" ++ n) ∈
        setup_accessors a n dict true true iml osc) ↔
      flagHas iml "set" = true) ∧
    ((Reg.imlInstance (a ++ "_get_" ++ n) ∈
        setup_accessors a n dict true true iml osc) ↔
      flagHas iml "get" = true) := by
  refine ⟨?_, ?_, ?_, ?_⟩
  · cases osc with
    | none =>
      constructor
      · rintro ⟨r, hr, hset⟩
        simp only [setup_accessors] at hr
        rcases List.mem_append.mp hr with h | h
        · obtain ⟨_, h2⟩ := mem_of_mem_ite_nil h
          rw [(mem_iml_mapping_flags _ _ _ _ r h2).1] at hset
          exact absurd hset (by simp)
        · obtain ⟨⟨_, hc⟩, _⟩ := mem_of_mem_ite_nil h
          simp [handle_get_set] at hc
      · intro hfalse
        simp [flagHas] at hfalse
    | some lo =>
      constructor
      · rintro ⟨r, hr, hset⟩
        simp only [setup_accessors] at hr
        rcases List.mem_append.mp hr with h | h
        · obtain ⟨_, h2⟩ := mem_of_mem_ite_nil h
          rw [(mem_iml_mapping_flags _ _ _ _ r h2).1] at hset
          exact absurd hset (by simp)
        · obtain ⟨_, h2⟩ := mem_of_mem_ite_nil h
          have := (exists_oscSet_osc_mapping _ _ dict _ _ _ _).mp ⟨r, h2, hset⟩
          simpa [flagHas, handle_get_set] using this
      · intro hs
        have hs2 : lo.contains "set" = true := by simpa [flagHas] using hs
        obtain ⟨r, hr, hset⟩ :=
          (exists_oscSet_osc_mapping (a ++ "_set_" ++ n) (a ++ "_get_" ++ n)
            dict (lo.contains "get") (lo.contains "set")
            (handle_get_set iml).2.1 (handle_get_set iml).2.2).mpr hs2
        refine ⟨r, ?_, hset⟩
        simp only [setup_accessors]
        apply List.mem_append_right
        rw [if_pos (by simp [handle_get_set])]
        exact hr
  · cases osc with
    | none =>
      constructor
      · rintro ⟨r, hr, hget⟩
        simp only [setup_accessors] at hr
        rcases List.mem_append.mp hr with h | h
        · obtain ⟨_, h2⟩ := mem_of_mem_ite_nil h
          rw [(mem_iml_mapping_flags _ _ _ _ r h2).2] at hget
          exact absurd hget (by simp)
        · obtain ⟨⟨_, hc⟩, _⟩ := mem_of_mem_ite_nil h
          simp [handle_get_set] at hc
      · intro hfalse
        simp [flagHas] at hfalse
    | some lo =>
      constructor
      · rintro ⟨r, hr, hget⟩
        simp only [setup_accessors] at hr
        rcases List.mem_append.mp hr with h | h
        · obtain ⟨_, h2⟩ := mem_of_mem_ite_nil h
          rw [(mem_iml_mapping_flags _ _ _ _ r h2).2] at hget
          exact absurd hget (by simp)
        · obtain ⟨_, h2⟩ := mem_of_mem_ite_nil h
          have := (exists_oscGet_osc_mapping _ _ dict _ _ _ _ hdict).mp
            ⟨r, h2, hget⟩
          simpa [flagHas, handle_get_set] using this
      · intro hg
        have hg2 : lo.contains "get" = true := by simpa [flagHas] using hg
        obtain ⟨r, hr, hget⟩ :=
          (exists_oscGet_osc_mapping (a ++ "_set_" ++ n) (a ++ "_get_" ++ n)
            dict (lo.contains "get") (lo.contains "set")
            (handle_get_set iml).2.1 (handle_get_set iml).2.2 hdict).mpr hg2
        refine ⟨r, ?_, hget⟩
        simp only [setup_accessors]
        apply List.mem_append_right
        rw [if_pos (by simp [handle_get_set])]
        exact hr
  · cases iml with
    | none =>
      constructor
      · intro h
        simp only [setup_accessors] at h
        rcases List.mem_append.mp h with h2 | h2
        · obtain ⟨⟨_, hc⟩, _⟩ := mem_of_mem_ite_nil h2
          simp [handle_get_set] at hc
        · obtain ⟨_, h3⟩ := mem_of_mem_ite_nil h2
          exact absurd h3 (imlInstance_not_mem_osc_mapping _ _ _ dict _ _ _ _)
      · intro hfalse
        simp [flagHas] at hfalse
    | some li =>
      constructor
      · intro h
        simp only [setup_accessors] at h
        rcases List.mem_append.mp h with h2 | h2
        · obtain ⟨_, h3⟩ := mem_of_mem_ite_nil h2
          have := (imlInstance_mem_iml_mapping_set _ _ _ _
            (setter_getter_name_ne a n)).mp h3
          simpa [flagHas, handle_get_set] using this
        · obtain ⟨_, h3⟩ := mem_of_mem_ite_nil h2
          exact absurd h3 (imlInstance_not_mem_osc_mapping _ _ _ dict _ _ _ _)
      · intro hs
        have hs2 : li.contains "set" = true := by simpa [flagHas] using hs
        simp only [setup_accessors]
        apply List.mem_append_left
        rw [if_pos (by simp [handle_get_set])]
        exact (imlInstance_mem_iml_mapping_set _ _ _ _
          (setter_getter_name_ne a n)).mpr hs2
  · cases iml with
    | none =>
      constructor
      · intro h
        simp only [setup_accessors] at h
        rcases List.mem_append.mp h with h2 | h2
        · obtain ⟨⟨_, hc⟩, _⟩ := mem_of_mem_ite_nil h2
          simp [handle_get_set] at hc
        · obtain ⟨_, h3⟩ := mem_of_mem_ite_nil h2
          exact absurd h3 (imlInstance_not_mem_osc_mapping _ _ _ dict _ _ _ _)
      · intro hfalse
        simp [flagHas] at hfalse
    | some li =>
      constructor
      · intro h
        simp only [setup_accessors] at h
        rcases List.mem_append.mp h with h2 | h2
        · obtain ⟨_, h3⟩ := mem_of_mem_ite_nil h2
          have := (imlInstance_mem_iml_mapping_get _ _ _ _
            (setter_getter_name_ne a n)).mp h3
          simpa [flagHas, handle_get_set] using this
        · obtain ⟨_, h3⟩ := mem_of_mem_ite_nil h2
          exact absurd h3 (imlInstance_not_mem_osc_mapping _ _ _ dict _ _ _ _)
      · intro hg
        have hg2 : li.contains "get" = true := by simpa [flagHas] using hg
        simp only [setup_accessors]
        apply List.mem_append_left
        rw [if_pos (by simp [handle_get_set])]
        exact (imlInstance_mem_iml_mapping_get _ _ _ _
          (setter_getter_name_ne a n)).mpr hg2

theorem mem_regs_of_mem_setters (a n : String) (dict : Schema)
    (iml : Option (List String)) (lo : List String)
    (hset : lo.contains "set" = true) (r : Reg)
    (hr : r ∈ add_osc_setters (a ++ "_set_" ++ n) dict) :
    r ∈ setup_accessors a n dict true true iml (some lo) := by
  simp only [setup_accessors]
  apply List.mem_append_right
  rw [if_pos (by simp [handle_get_set])]
  unfold setup_osc_mapping
  apply List.mem_append_left
  rw [if_pos (by simpa [handle_get_set] using hset)]
  exact List.mem_append_left _ hr

theorem mem_regs_of_mem_getters (a n : String) (dict : Schema)
    (iml : Option (List String)) (lo : List String)
    (hget : lo.contains "get" = true) (r : Reg)
    (hr : r ∈ add_osc_getters (a ++ "_get_" ++ n) dict) :
    r ∈ setup_accessors a n dict true true iml (some lo) := by
  simp only [setup_accessors]
  apply List.mem_append_right
  rw [if_pos (by simp [handle_get_set])]
  unfold setup_osc_mapping
  apply List.mem_append_right
  rw [if_pos (by simpa [handle_get_set] using hget)]
  exact List.mem_append_left _ hr

/-- C8: when a block requests the routing-layer set flag (and the
routing layer is available), accessor generation registers the
`_randomise` route bound to the re-randomising handler, the four
whole-block positional writers `_idx`/`_row`/`_col`/`_all` at their
stated index arities (2, 1, 1, 0), and for every schema attribute the
four per-attribute variants, each bound to the handler of the stated
granularity. -/
theorem osc_setter_routes (a n : String) (dict : Schema)
    (iml : Option (List String)) (lo : List String)
    (hset : lo.contains "set" = true) :
    (Reg.oscInline (a ++ "_set_" ++ n ++ "_randomise") Handler.randomise ∈
      setup_accessors a n dict true true iml (some lo)) ∧
    (Reg.oscListWithIdx (a ++ "_set_" ++ n ++ "_idx")
      Handler.setStateIdxFromList 2 LenRef.lenStateIdx none ∈
      setup_accessors a n dict true true iml (some lo)) ∧
    (Reg.oscListWithIdx (a ++ "_set_" ++ n ++ "_row")
      Handler.setStateRowFromList 1 LenRef.lenStateRow none ∈
      setup_accessors a n dict true true iml (some lo)) ∧
    (Reg.oscListWithIdx (a ++ "_set_" ++ n ++ "_col")
      Handler.setStateColFromList 1 LenRef.lenStateCol none ∈
      setup_accessors a n dict true true iml (some lo)) ∧
    (Reg.oscListWithIdx (a ++ "_set_" ++ n ++ "_all")
      Handler.setStateAllFromList 0 LenRef.lenStateAll none ∈
      setup_accessors a n dict true true iml (some lo)) ∧
    ∀ kv ∈ dict,
      (Reg.oscListWithIdx (a ++ "_set_" ++ n ++ "_" ++ kv.1 ++ "_idx")
        (Handler.setAttrIdx kv.1) 2 (LenRef.lit 1) (some kv.1) ∈
        setup_accessors a n dict true true iml (some lo)) ∧
      (Reg.oscListWithIdx (a ++ "_set_" ++ n ++ "_" ++ kv.1 ++ "_row")
        (Handler.setAttrRow kv.1) 1 LenRef.lenAttrRow (some kv.1) ∈
        setup_accessors a n dict true true iml (some lo)) ∧
      (Reg.oscListWithIdx (a ++ "_set_" ++ n ++ "_" ++ kv.1 ++ "_col")
        (Handler.setAttrCol kv.1) 1 LenRef.lenAttrCol (some kv.1) ∈
        setup_accessors a n dict true true iml (some lo)) ∧
      (Reg.oscListWithIdx (a ++ "_set_" ++ n ++ "_" ++ kv.1 ++ "_all")
        (Handler.setAttrAll kv.1) 0 LenRef.lenAttrAll (some kv.1) ∈
        setup_accessors a n dict true true iml (some lo)) := by
  refine ⟨?_, ?_, ?_, ?_, ?_, ?_⟩
  · exact mem_regs_of_mem_setters a n dict iml lo hset _
      (by simp [add_osc_setters])
  · exact mem_regs_of_mem_setters a n dict iml lo hset _
      (by simp [add_osc_setters])
  · exact mem_regs_of_mem_setters a n dict iml lo hset _
      (by simp [add_osc_setters])
  · exact mem_regs_of_mem_setters a n dict iml lo hset _
      (by simp [add_osc_setters])
  · exact mem_regs_of_mem_setters a n dict iml lo hset _
      (by simp [add_osc_setters])
  · intro kv hkv
    refine ⟨?_, ?_, ?_, ?_⟩ <;>
      refine mem_regs_of_mem_setters a n dict iml lo hset _ ?_ <;>
      · unfold add_osc_setters
        apply List.mem_append_right
        refine List.mem_flatten.mpr ⟨_, List.mem_map.mpr ⟨kv, hkv, rfl⟩, ?_⟩
        simp

theorem mem_getters_shape (gn : String) (dict : Schema) (r : Reg)
    (hr : r ∈ add_osc_getters gn dict) :
    ∃ k t mn mx, (k, t, mn, mx) ∈ dict ∧
      r = Reg.oscGetterReg gn (t.code, t.code, mn) (t.code, t.code, mn)
        (k, k, k) := by
  rcases List.mem_map.mp hr with ⟨kv, hkv, rfl⟩
  obtain ⟨k, t, mn, mx⟩ := kv
  exact ⟨k, t, mn, mx, hkv, rfl⟩

/-- C9: for every attribute of a block with routing-layer get enabled,
the registered getter's declared i and j argument ranges are built from
the attribute's schema triple as `(int(type), int(type), min)` — the
type entry and the min entry, not the (min, max) bound — and every
getter registration has that shape. -/
theorem osc_getter_ranges_from_type (a n : String) (dict : Schema)
    (iml : Option (List String)) (lo : List String)
    (hget : lo.contains "get" = true) :
    (∀ k t mn mx, (k, t, mn, mx) ∈ dict →
      Reg.oscGetterReg (a ++ "_get_" ++ n) (t.code, t.code, mn)
        (t.code, t.code, mn) (k, k, k) ∈
        setup_accessors a n dict true true iml (some lo)) ∧
    (∀ r ∈ setup_accessors a n dict true true iml (some lo),
      r.isOscGet = true → ∃ k t mn mx, (k, t, mn, mx) ∈ dict ∧
        r = Reg.oscGetterReg (a ++ "_get_" ++ n) (t.code, t.code, mn)
          (t.code, t.code, mn) (k, k, k)) := by
  constructor
  · intro k t mn mx hmem
    refine mem_regs_of_mem_getters a n dict iml lo hget _ ?_
    unfold add_osc_getters
    exact List.mem_map.mpr ⟨(k, t, mn, mx), hmem, rfl⟩
  · intro r hr hget2
    simp only [setup_accessors] at hr
    rcases List.mem_append.mp hr with h | h
    · obtain ⟨_, h2⟩ := mem_of_mem_ite_nil h
      rw [(mem_iml_mapping_flags _ _ _ _ r h2).2] at hget2
      exact absurd hget2 (by simp)
    · obtain ⟨_, h2⟩ := mem_of_mem_ite_nil h
      unfold setup_osc_mapping at h2
      rcases List.mem_append.mp h2 with h3 | h3
      · obtain ⟨_, h4⟩ := mem_of_mem_ite_nil h3
        rcases List.mem_append.mp h4 with h5 | h5
        · rw [(mem_setters_flags _ dict r h5).2] at hget2
          exact absurd hget2 (by simp)
        · obtain ⟨_, h6⟩ := mem_of_mem_ite_nil h5
          simp [add_iml_osc_setters] at h6
      · obtain ⟨_, h4⟩ := mem_of_mem_ite_nil h3
        rcases List.mem_append.mp h4 with h5 | h5
        · exact mem_getters_shape _ dict r h5
        · obtain ⟨_, h6⟩ := mem_of_mem_ite_nil h5
          simp [add_iml_osc_getters] at h6

/-- C10: the generated OSC getter returns exactly the value read for the
requested coordinate and attribute, and it dispatches a reply (on the
route derived from the getter's canonical name, carrying the attribute
and the value, to the requesting client) if and only if the read value
is not None; when the value is None nothing is sent. -/
theorem osc_getter_return_and_reply (s : State) (c : String) (i j : Nat)
    (attrName : String) :
    (s.osc_getter c i j attrName).1 = s.get (i, j) attrName ∧
    ((s.osc_getter c i j attrName).2 ≠ [] ↔
      (s.get (i, j) attrName).isSome = true) ∧
    ∀ m ∈ (s.osc_getter c i j attrName).2,
      m.route = pascal_to_path s.getter_name ∧ m.attrName = attrName ∧
        some m.value = s.get (i, j) attrName ∧ m.client = c := by
  simp only [State.osc_getter]
  cases h : s.get (i, j) attrName <;> simp [h]

theorem map_from_nddict_field (r : Except Err NpNdarrayDict) (s1 s2 : State)
    (h : r.map (fun nd => State.from_nddict { s1 with nddict := nd }) =
      Except.ok s2) :
    s2.field = s2.nddict.data := by
  cases r with
  | error e => simp [Except.map] at h
  | ok nd =>
    simp only [Except.map, Except.ok.injEq] at h
    rw [← h]
    rfl

/-- C7: every vector codec on a block pulls device state into the host
mirror before touching it — so the codec's outcome is independent of any
stale host-mirror contents — and every writing codec pushes the mirror
back to the device field after mutating it, so the device field equals
the mirror on every successful write. -/
theorem codec_sync_discipline (s : State) (hdata : List (List Int))
    (vec : List Int) (attr : String) (start stop : Nat) :
    ((setHost s hdata).to_vec = s.to_vec) ∧
    ((setHost s hdata).attr_to_vec attr = s.attr_to_vec attr) ∧
    ((setHost s hdata).slice_to_vec start stop = s.slice_to_vec start stop) ∧
    ((setHost s hdata).attr_slice_to_vec attr start stop =
      s.attr_slice_to_vec attr start stop) ∧
    ((setHost s hdata).from_vec vec = s.from_vec vec) ∧
    ((setHost s hdata).attr_from_vec attr vec = s.attr_from_vec attr vec) ∧
    ((setHost s hdata).slice_from_vec start stop vec =
      s.slice_from_vec start stop vec) ∧
    ((setHost s hdata).attr_slice_from_vec attr start stop vec =
      s.attr_slice_from_vec attr start stop vec) ∧
    (∀ s2, s.from_vec vec = Except.ok s2 → s2.field = s2.nddict.data) ∧
    (∀ s2, s.attr_from_vec attr vec = Except.ok s2 →
      s2.field = s2.nddict.data) ∧
    (∀ s2, s.slice_from_vec start stop vec = Except.ok s2 →
      s2.field = s2.nddict.data) ∧
    (∀ s2, s.attr_slice_from_vec attr start stop vec = Except.ok s2 →
      s2.field = s2.nddict.data) := by
  refine ⟨rfl, rfl, rfl, rfl, rfl, rfl, rfl, rfl, ?_, ?_, ?_, ?_⟩
  · intro s2 h
    exact map_from_nddict_field _ _ _ h
  · intro s2 h
    exact map_from_nddict_field _ _ _ h
  · intro s2 h
    exact map_from_nddict_field _ _ _ h
  · intro s2 h
    exact map_from_nddict_field _ _ _ h

theorem statedict_declare_size_invariant_witness :
    ∃ s, (((StateDict.init "tv").set "p"
        (KVal.dictSpec sampleSchema [2] true)).1.blocks =
        (StateDict.init "tv").blocks ++ [("p", s)]) ∧
      (((StateDict.init "tv").set "p"
        (KVal.dictSpec sampleSchema [2] true)).1.sizeEntry =
        some (0 + (s.size : Int))) ∧
      (((StateDict.init "tv").set "p"
        (KVal.dictSpec sampleSchema [2] true)).1.sizeEntry =
        some ((((StateDict.init "tv").set "p"
          (KVal.dictSpec sampleSchema [2] true)).1.sumBlockSizes : Int))) :=
  statedict_declare_size_invariant (StateDict.init "tv") "p"
    (KVal.dictSpec sampleSchema [2] true) sampleSchema [2] true 0
    (Or.inl rfl) (by decide) (by decide) (by decide)

theorem statedict_duplicate_rejected_witness :
    (sampleDict.set "p" (KVal.dictSpec sampleSchema [2] true) =
      (sampleDict, some Err.valueError)) ∧
    ((sampleDict.set "size" (KVal.intVal 7)).2 = none) :=
  ⟨(statedict_duplicate_rejected sampleDict "p"
      (KVal.dictSpec sampleSchema [2] true) (by decide) (by decide)).1,
   (statedict_duplicate_rejected sampleDict "p"
      (KVal.dictSpec sampleSchema [2] true) (by decide) (by decide)).2 7⟩

theorem statedict_from_vec_size_mismatch_witness :
    sampleDict.from_vec ["p"] [0, 0, 0] = (sampleDict, some Err.assertionError) :=
  statedict_from_vec_size_mismatch sampleDict ["p"] [0, 0, 0] 4
    rfl (by decide)

theorem accessor_generation_iff_witness :
    ((∃ r ∈ setup_accessors "tv" "p" sampleSchema true true
        (some ["get"]) none, r.isOscSet = true) ↔
      flagHas none "set" = true) ∧
    ((∃ r ∈ setup_accessors "tv" "p" sampleSchema true true
        (some ["get"]) none, r.isOscGet = true) ↔
      flagHas none "get" = true) ∧
    ((Reg.imlInstance ("tv" ++ "_set_" ++ "p") ∈
        setup_accessors "tv" "p" sampleSchema true true (some ["get"]) none) ↔
      flagHas (some ["get"]) "set" = true) ∧
    ((Reg.imlInstance ("tv" ++ "_get_" ++ "p") ∈
        setup_accessors "tv" "p" sampleSchema true true (some ["get"]) none) ↔
      flagHas (some ["get"]) "get" = true) :=
  accessor_generation_iff "tv" "p" sampleSchema (some ["get"]) none (by decide)

theorem statedict_from_vec_concat_roundtrip_witness :
    ∃ d2, sampleDict.from_vec ["p", "q"] (sampleDict.vecsOf ["p", "q"]) =
      (d2, none) ∧
      ∀ nm ∈ ["p", "q"], ∃ s s2, sampleDict.lookupBlock nm = some s ∧
        d2.lookupBlock nm = some s2 ∧ s2.to_vec = s.to_vec :=
  statedict_from_vec_concat_roundtrip sampleDict ["p", "q"] (by decide)
    (by
      intro nm hm
      rcases List.mem_cons.mp hm with rfl | hm2
      · exact ⟨_, rfl, by decide⟩
      · rcases List.mem_cons.mp hm2 with rfl | hm3
        · exact ⟨_, rfl, by decide⟩
        · simp at hm3)

theorem codec_sync_discipline_witness :
    ((setHost sampleState [[7], [8]]).to_vec = sampleState.to_vec) ∧
    sampleWritten.field = sampleWritten.nddict.data :=
  ⟨(codec_sync_discipline sampleState [[7], [8]] [5, 5, 5, 5] "x" 0 1).1,
   (codec_sync_discipline sampleState [[7], [8]]
      [5, 5, 5, 5] "x" 0 1).2.2.2.2.2.2.2.2.1 sampleWritten rfl⟩

theorem osc_setter_routes_witness :
    (Reg.oscInline ("tv" ++ "_set_" ++ "p" ++ "_randomise")
      Handler.randomise ∈
      setup_accessors "tv" "p" sampleSchema true true none (some ["set"])) ∧
    (Reg.oscListWithIdx ("tv" ++ "_set_" ++ "p" ++ "_" ++ "x" ++ "_idx")
      (Handler.setAttrIdx "x") 2 (LenRef.lit 1) (some "x") ∈
      setup_accessors "tv" "p" sampleSchema true true none (some ["set"])) :=
  ⟨(osc_setter_routes "tv" "p" sampleSchema none ["set"] (by decide)).1,
   ((osc_setter_routes "tv" "p" sampleSchema none ["set"]
      (by decide)).2.2.2.2.2 ("x", TiType.f32, -1, 1) (by decide)).1⟩

theorem osc_getter_ranges_from_type_witness :
    Reg.oscGetterReg ("tv" ++ "_get_" ++ "p")
      (TiType.f32.code, TiType.f32.code, -1)
      (TiType.f32.code, TiType.f32.code, -1) ("x", "x", "x") ∈
      setup_accessors "tv" "p" sampleSchema true true none (some ["get"]) :=
  (osc_getter_ranges_from_type "tv" "p" sampleSchema none ["get"]
    (by decide)).1 "x" TiType.f32 (-1) 1 (by decide)

theorem osc_getter_return_and_reply_witness :
    ((sampleState.osc_getter "client" 0 1 "x").1 =
      sampleState.get (0, 1) "x") ∧
    ((sampleState.osc_getter "client" 0 1 "x").2 ≠ [] ↔
      (sampleState.get (0, 1) "x").isSome = true) ∧
    ((OscMsg.mk "/tv_get_p" "x" 2 "client").route =
        pascal_to_path sampleState.getter_name ∧
      (OscMsg.mk "/tv_get_p" "x" 2 "client").attrName = "x" ∧
      some (OscMsg.mk "/tv_get_p" "x" 2 "client").value =
        sampleState.get (0, 1) "x" ∧
      (OscMsg.mk "/tv_get_p" "x" 2 "client").client = "client") :=
  ⟨(osc_getter_return_and_reply sampleState "client" 0 1 "x").1,
   (osc_getter_return_and_reply sampleState "client" 0 1 "x").2.1,
   (osc_getter_return_and_reply sampleState "client" 0 1 "x").2.2
     (OscMsg.mk "/tv_get_p" "x" 2 "client") (by decide)⟩

end Tolvera
